import Mathlib

/-!
# tinder-collect: ingestion of a log file into a relational store

A shallow embedding of `src/tinder-collect/collect.go`.

The program talks to four things outside itself: the sqlite connection `db`,
the format matcher `format.Read`, the standard library (`time`, `math/rand`,
`crypto/md5`) and the file being read.  They are collected in `Env`; the
mutable part of the world (store contents, open transaction, counters of the
draws taken from each source, the log output) is threaded through every
function as a `World`.  The program binds its strings as text; what a column
keeps of them is decided by the store, from the types `initStmts` declares.
A Go `panic` is an `Except.error` that keeps the world reached so far, so that
the deferred rollback of `readLog` can run on it.
-/

namespace Tinder

/-! ## Data model (the schema of `initStmts`) -/

/-- A value as sqlite keeps it in a column: text, a 64-bit integer, or a double
(given by its IEEE 754 bit pattern). -/
inductive Value where
  | text (s : String)
  | integer (i : Int)
  | real (bits : Nat)
deriving DecidableEq, Repr

/-- Row of table `logs (log_id INTEGER PRIMARY KEY AUTOINCREMENT, log_name STRING,
filename STRING)`. -/
structure LogRow where
  log_id : Int
  log_name : Value
  filename : Value
deriving DecidableEq, Repr

/-- Row of table `entries (log_id INTEGER, entry_id STRING PRIMARY KEY,
entry_full STRING, entry_time INTEGER)`. -/
structure EntryRow where
  log_id : Int
  entry_id : Value
  entry_full : Value
  entry_time : Int
deriving DecidableEq, Repr

/-- Row of table `strings (column_name STRING, entry_id INTEGER, string_value STRING,
UNIQUE (column_name, entry_id))`. -/
structure StringRow where
  column_name : Value
  entry_id : Value
  string_value : Value
deriving DecidableEq, Repr

/-- Contents of the database: the three tables the program writes, in insertion
order, and `seq`, the `sqlite_sequence` counter kept for the AUTOINCREMENT key of
`logs`.  Table `stats` is created by `initStmts` and never touched afterwards. -/
structure Store where
  logs : List LogRow
  entries : List EntryRow
  strings : List StringRow
  seq : Int
deriving DecidableEq, Repr

/-- Operations the program issues on the connection `db` and on the prepared
statement `findStmt` of `getLog`, with the parameters it binds: Go strings are
bound as text, `log_id` and `date.Unix()` as integers. -/
inductive Op where
  | begin
  | commit
  | rollback
  | prepareFind
  | findExec (lname : String)
  | findNext
  | findScan
  | findReset
  | findFinalize
  | insertLog (lname fname : String)
  | insertEntry (log_id : Int) (entry_id entry_full : String) (entry_time : Int)
  | insertString (column_name entry_id string_value : String)
deriving DecidableEq, Repr

/-- Lines written with `log.Printf`. -/
inductive LogMsg where
  | usingLog (lname : String) (id : Int)
  | createdLog (lname : String) (id : Int)
  | warnFinalize
  | rollingBack
  | warnRollbackFailed
  | readingLogFile (fname : String)
  | errorReadingLine (line : String)
  | errorParsingDate (date : Int)
deriving DecidableEq, Repr

/-- Values the program panics with. -/
inductive Panic where
  | store (op : Op)
  | insertFailed
  | openFile (fname : String)
deriving DecidableEq, Repr

deriving instance DecidableEq for Except

/-- Result of `time.Parse`: Go returns a `Time` together with an error; `date` is
the Unix time of the returned `Time`, `failed` says that the error is not nil. -/
structure ParseResult where
  date : Int
  failed : Bool
deriving DecidableEq, Repr

/-- Everything the program reads from outside itself.
* `formatRead logFmt line` is `format.Read`: the extracted mapping (its pairs in
  the order in which Go ranges over the map) or `none` when it returns an error;
* `timeParse layout value` is `time.Parse`;
* `md5` is the MD5 digest on byte lists;
* `randInt k` is the value of the `k`-th call of `rand.Int()`;
* `now k` is the Unix time of the `k`-th call of `time.Now()`;
* `fails k` says that the store refuses the `k`-th operation issued on it;
* `affinity s` is the value that the store keeps, and compares with, when the
  text `s` is bound to a column declared `STRING` or `INTEGER`: sqlite gives
  such columns NUMERIC and INTEGER affinity, which treat text alike, so that
  text reading as a number is kept as that number and other text as it is;
* `readFile fname` is `none` when `os.Open` fails, and otherwise the results
  `(l, isPrefix)` that `ReadLine` returns before `io.EOF`. -/
structure Env where
  formatRead : String → String → Option (List (String × String))
  timeParse : String → String → ParseResult
  md5 : List Nat → List Nat
  randInt : Nat → Nat
  now : Nat → Int
  fails : Nat → Bool
  affinity : String → Value
  readFile : String → Option (List (String × Bool))

/-- The command-line flags read by `addLine`. -/
structure Flags where
  dateLayout : String
  compact : Bool
  relax : Bool
deriving DecidableEq, Repr

/-- Mutable state: the contents visible on the connection, the snapshot taken by
`BEGIN` while a transaction is open, the number of store operations issued, the
operations issued with their success, the number of `rand.Int()` and
`time.Now()` calls made, and the log output. -/
structure World where
  store : Store
  txn : Option Store
  ops : Nat
  trace : List (Op × Bool)
  rnd : Nat
  clk : Nat
  out : List LogMsg
deriving DecidableEq, Repr

/-- Append a line to the log output. -/
def World.log (w : World) (m : LogMsg) : World :=
  { w with out := w.out ++ [m] }

/-! ## The store -/

/-- Key that AUTOINCREMENT gives to the next row of `logs`: one more than the
largest key ever used. -/
def nextLogId (s : Store) : Int :=
  s.logs.foldl (fun m r => max m r.log_id) s.seq + 1

/-- The largest key of a row, `2^63 - 1`; once it has been used AUTOINCREMENT
refuses every insert. -/
def maxRowid : Int := 9223372036854775807

/-- The store after a successful `INSERT INTO logs` of a row with these values. -/
def withNewLog (s : Store) (name file : Value) : Store :=
  { s with logs := s.logs ++ [⟨nextLogId s, name, file⟩], seq := nextLogId s }

/-- The row of `entries` that the store keeps for the parameters of an insert. -/
def storedEntry (env : Env) (log_id : Int) (entry_id entry_full : String) (entry_time : Int) :
    EntryRow :=
  ⟨log_id, env.affinity entry_id, env.affinity entry_full, entry_time⟩

/-- The row of `strings` that the store keeps for the parameters of an insert. -/
def storedString (env : Env) (column_name entry_id string_value : String) : StringRow :=
  ⟨env.affinity column_name, env.affinity entry_id, env.affinity string_value⟩

/-- Effect of an operation that the store accepts; `none` when the store must
refuse it (nested `BEGIN`, `COMMIT` or `ROLLBACK` outside a transaction, a
violated key constraint, no key left).  Text bound to a column is kept as
`env.affinity` says. -/
def Op.effect (env : Env) : Op → World → Option World
  | .begin, w =>
    match w.txn with
    | none => some { w with txn := some w.store }
    | some _ => none
  | .commit, w =>
    match w.txn with
    | some _ => some { w with txn := none }
    | none => none
  | .rollback, w =>
    match w.txn with
    | some s => some { w with store := s, txn := none }
    | none => none
  | .insertLog lname fname, w =>
    if maxRowid < nextLogId w.store then none
    else some { w with store := withNewLog w.store (env.affinity lname) (env.affinity fname) }
  | .insertEntry log_id entry_id entry_full entry_time, w =>
    if w.store.entries.any (fun r => r.entry_id == env.affinity entry_id) then none
    else some { w with store := { w.store with entries :=
      w.store.entries ++ [storedEntry env log_id entry_id entry_full entry_time] } }
  | .insertString column_name entry_id string_value, w =>
    if w.store.strings.any (fun r =>
        r.column_name == env.affinity column_name && r.entry_id == env.affinity entry_id) then none
    else some { w with store := { w.store with strings :=
      w.store.strings ++ [storedString env column_name entry_id string_value] } }
  | _, w => some w

/-- Issue one operation: it fails when the fault schedule says so or when the
store must refuse it, and then changes nothing; either way it is counted and
recorded in the trace. -/
def issue (env : Env) (op : Op) (w : World) : Bool × World :=
  if env.fails w.ops then
    (false, { w with ops := w.ops + 1, trace := w.trace ++ [(op, false)] })
  else
    match op.effect env w with
    | none => (false, { w with ops := w.ops + 1, trace := w.trace ++ [(op, false)] })
    | some w' => (true, { w' with ops := w.ops + 1, trace := w.trace ++ [(op, true)] })

/-! ## `entryId` -/

/-- The loop `for i := 0; i < 2; i++ { rbs[i] = byte(rand.Int()) }`, with `n` the
number of iterations left and `i` the loop variable. -/
def fillRandom (env : Env) : Nat → Nat → List Nat → World → List Nat × World
  | 0, _, rbs, w => (rbs, w)
  | n + 1, i, rbs, w =>
    fillRandom env n (i + 1) (rbs.set i (env.randInt w.rnd % 256)) { w with rnd := w.rnd + 1 }

/-- The slice `rbs` as `entryId` hands it to the digest: `make([]byte, 8)` after
the loop, which runs while `i < 2`. -/
def randomBytes (env : Env) (w : World) : List Nat × World :=
  fillRandom env 2 0 (List.replicate 8 0) w

/-- Bytes of a string, `[]byte(s)`. -/
def bytesOf (s : String) : List Nat :=
  s.data.flatMap (fun c => (String.utf8EncodeChar c).map UInt8.toNat)

/-- Digits used by `hex.EncodeToString`. -/
def hextable : List Char :=
  ['0', '1', '2', '3', '4', '5', '6', '7', '8', '9', 'a', 'b', 'c', 'd', 'e', 'f']

/-- Lower-case hexadecimal rendering, `hex.EncodeToString`. -/
def hexEncode (bs : List Nat) : String :=
  String.mk (bs.flatMap (fun b => [hextable.getD (b / 16 % 16) '0', hextable.getD (b % 16) '0']))

/-- What `entryId` writes to the digest: `rbs`, the decimal log id, the line. -/
def entryIdInput (rbs : List Nat) (log_id : Int) (line : String) : List Nat :=
  rbs ++ bytesOf (toString log_id) ++ bytesOf line

/-- Function `entryId`. -/
def entryId (env : Env) (log_id : Int) (line : String) (w : World) : String × World :=
  let r := randomBytes env w
  (hexEncode (env.md5 (entryIdInput r.1 log_id line)), r.2)

/-! ## `addLine` -/

/-- The loop `for k, v := range data` of `addLine`. -/
def insertStrings (env : Env) (entry_id : String) :
    List (String × String) → World → Except Panic Unit × World
  | [], w => (.ok (), w)
  | (k, v) :: rest, w =>
    match issue env (.insertString k entry_id v) w with
    | (false, w1) => (.error (.store (.insertString k entry_id v)), w1)
    | (true, w1) => insertStrings env entry_id rest w1

/-- The value of `date` when `addLine` reaches the insert, with the world after
the warning that a failed parse logs.  `now` is the reading `date := time.Now()`
taken before; `date, err = time.Parse(*dateLayout, dt)` overwrites it whenever
the mapping has a "datetime" key. -/
def resolveDate (env : Env) (flags : Flags) (data : List (String × String)) (now : Int)
    (w : World) : Int × World :=
  match data.lookup "datetime" with
  | some dt =>
    let r := env.timeParse flags.dateLayout dt
    (r.date, if r.failed then w.log (.errorParsingDate r.date) else w)
  | none => (now, w)

/-- Function `addLine`. -/
def addLine (env : Env) (flags : Flags) (log_id : Int) (logFmt line : String) (w : World) :
    Except Panic Unit × World :=
  match env.formatRead logFmt line with
  | none => (.ok (), if flags.relax then w else w.log (.errorReadingLine line))
  | some data =>
    let e := entryId env log_id line w
    let now := env.now e.2.clk
    let d := resolveDate env flags data now { e.2 with clk := e.2.clk + 1 }
    let entry_full := if flags.compact then "" else line
    match issue env (.insertEntry log_id e.1 entry_full d.1) d.2 with
    | (false, w1) => (.error (.store (.insertEntry log_id e.1 entry_full d.1)), w1)
    | (true, w1) => insertStrings env e.1 data w1

/-- The rows of `strings` kept for a mapping inserted under an entry id: one per
pair, all with that entry id. -/
def stringRows (env : Env) (entry_id : String) (data : List (String × String)) :
    List StringRow :=
  data.map (fun kv => storedString env kv.1 entry_id kv.2)

/-- The date that `addLine` hands to the insert for a matched line with mapping
`data`. -/
def entryDate (env : Env) (flags : Flags) (log_id : Int) (line : String)
    (data : List (String × String)) (w : World) : Int :=
  (resolveDate env flags data (env.now (entryId env log_id line w).2.clk)
    { (entryId env log_id line w).2 with clk := (entryId env log_id line w).2.clk + 1 }).1

/-- The row of `entries` kept for a matched line with mapping `data`. -/
def entryRow (env : Env) (flags : Flags) (log_id : Int) (line : String)
    (data : List (String × String)) (w : World) : EntryRow :=
  storedEntry env log_id (entryId env log_id line w).1 (if flags.compact then "" else line)
    (entryDate env flags log_id line data w)

/-! ## `getLog` -/

/-- Function `logName`. -/
def logName (fname : String) : String := fname

/-- Outcome of `findStmt.Next()`: a row is available (`id` is the `log_id` that
`Scan(&id)` will read), the query is exhausted, or the step failed (then `Next`
returns false and `findStmt.Error()` is not nil). -/
inductive NextResult where
  | row (id : Int)
  | done
  | err
deriving DecidableEq, Repr

/-- The call `findStmt.Next()` for `SELECT log_id FROM logs WHERE log_name=?`
bound to `lname`: the column's affinity is applied to the bound text before the
comparison. -/
def findNext (env : Env) (lname : String) (w : World) : NextResult × World :=
  match issue env .findNext w with
  | (false, w1) => (.err, w1)
  | (true, w1) =>
    match w1.store.logs.find? (fun r => r.log_name == env.affinity lname) with
    | some r => (.row r.log_id, w1)
    | none => (.done, w1)

/-- The call `findStmt.Finalize()`, whose error is only logged. -/
def finalize (env : Env) (w : World) : World :=
  match issue env .findFinalize w with
  | (true, w1) => w1
  | (false, w1) => w1.log .warnFinalize

/-- Function `getLog`. -/
def getLog (env : Env) (lname fname : String) (w : World) : Except Panic Int × World :=
  match issue env .prepareFind w with
  | (false, w1) => (.error (.store .prepareFind), w1)
  | (true, w1) =>
  match issue env (.findExec lname) w1 with
  | (false, w2) => (.error (.store (.findExec lname)), w2)
  | (true, w2) =>
  match findNext env lname w2 with
  | (.row id, w3) =>
    match issue env .findScan w3 with
    | (false, w4) => (.error (.store .findScan), w4)
    | (true, w4) => (.ok id, finalize env (w4.log (.usingLog lname id)))
  | (.err, w3) => (.error (.store .findNext), w3)
  | (.done, w3) =>
  match issue env (.insertLog lname fname) w3 with
  | (false, w4) => (.error (.store (.insertLog lname fname)), w4)
  | (true, w4) =>
  match issue env .findReset w4 with
  | (false, w5) => (.error (.store .findReset), w5)
  | (true, w5) =>
  match issue env (.findExec lname) w5 with
  | (false, w6) => (.error (.store (.findExec lname)), w6)
  | (true, w6) =>
  match findNext env lname w6 with
  | (.row id, w7) =>
    match issue env .findScan w7 with
    | (false, w8) => (.error (.store .findScan), w8)
    | (true, w8) => (.ok id, finalize env (w8.log (.createdLog lname id)))
  | (.err, w7) => (.error (.store .findNext), w7)
  | (.done, w7) => (.error .insertFailed, w7)

/-! ## `readLog` -/

/-- The goroutine of `readLog` that fills the channel `lines`: `line` is its
variable of that name, the list holds the results `(l, isPrefix)` of the
`ReadLine` calls still to come before `io.EOF`, and the result is the sequence
of strings sent on the channel. -/
def producer (line : String) : List (String × Bool) → List String
  | [] => []
  | (l, isPrefix) :: rest =>
    if !isPrefix then (line ++ l) :: producer "" rest
    else producer (line ++ l) rest

/-- The loop `for line := range lines { addLine(log_id, logFmt, line) }`. -/
def consume (env : Env) (flags : Flags) (log_id : Int) (logFmt : String) :
    List String → World → Except Panic Unit × World
  | [], w => (.ok (), w)
  | line :: rest, w =>
    match addLine env flags log_id logFmt line w with
    | (.error e, w1) => (.error e, w1)
    | (.ok _, w1) => consume env flags log_id logFmt rest w1

/-- Body of `readLog` after the `defer`: the outcome, the world, and the value
of `success` when the body is left. -/
def readLogBody (env : Env) (flags : Flags) (fname logFmt : String) (w : World) :
    Except Panic Unit × World × Bool :=
  match getLog env (logName fname) fname w with
  | (.error e, w1) => (.error e, w1, false)
  | (.ok log_id, w1) =>
    match env.readFile fname with
    | none => (.error (.openFile fname), w1.log (.readingLogFile fname), false)
    | some frags =>
      match consume env flags log_id logFmt (producer "" frags)
          (w1.log (.readingLogFile fname)) with
      | (.error e, w2) => (.error e, w2, false)
      | (.ok _, w2) =>
        match issue env .commit w2 with
        | (false, w3) => (.error (.store .commit), w3, true)
        | (true, w3) => (.ok (), w3, true)

/-- The deferred function of `readLog`. -/
def deferred (env : Env) (success : Bool) (w : World) : World :=
  if success then w
  else
    match issue env .rollback (w.log .rollingBack) with
    | (true, w1) => w1
    | (false, w1) => w1.log .warnRollbackFailed

/-- Function `readLog`.  A read error other than `io.EOF` panics inside the
goroutine and is not part of this model. -/
def readLog (env : Env) (flags : Flags) (fname logFmt : String) (w : World) :
    Except Panic Unit × World :=
  match issue env .begin w with
  | (false, w1) => (.error (.store .begin), w1)
  | (true, w1) =>
    let r := readLogBody env flags fname logFmt w1
    (r.1, deferred env r.2.2 r.2.1)

/-! ## Logical lines and their fragments -/

/-- The results of `ReadLine` for one logical line handed out in pieces: every
piece but the last comes with `isPrefix` set, the last one without. -/
def fragmentsOf (pieces : List String) (last : String) : List (String × Bool) :=
  pieces.map (fun p => (p, true)) ++ [(last, false)]

/-- The results of `ReadLine` before `io.EOF` for a sequence of runs, each
ending at a fragment with `isPrefix` unset, followed by `rest`, fragments with
`isPrefix` set that no such fragment follows. -/
def fragmentsOfFile (runs : List (List String × String)) (rest : List String) :
    List (String × Bool) :=
  runs.flatMap (fun r => fragmentsOf r.1 r.2) ++ rest.map (fun p => (p, true))

/-! ## Traces -/

/-- Events of operations other than `BEGIN`, `COMMIT` and `ROLLBACK`. -/
def Quiet (evs : List (Op × Bool)) : Prop :=
  ∀ ev ∈ evs, ev.1 ≠ .begin ∧ ev.1 ≠ .commit ∧ ev.1 ≠ .rollback

/-- World `w1` is reached from `w` by issuing operations other than `BEGIN`,
`COMMIT` and `ROLLBACK`. -/
def Extends (w w1 : World) : Prop :=
  ∃ evs, w1.trace = w.trace ++ evs ∧ Quiet evs

/-- Outcome `r` is reached from `w` by issuing operations other than `BEGIN`,
`COMMIT` and `ROLLBACK`, and if it is the failure of a store operation, that
operation is among them, recorded as failed. -/
def Tracks {α : Type} (w : World) (r : Except Panic α × World) : Prop :=
  ∃ evs, r.2.trace = w.trace ++ evs ∧ Quiet evs ∧
    ∀ op, r.1 = .error (.store op) → (op, false) ∈ evs

/-! ## A sample environment -/

/-- Matcher of the sample environment: what `format.Read` extracts from two
lines under the default template, the whole line as `msg` under the template
`${msg}`, and a rejection of everything else. -/
def sampleFormatRead (logFmt line : String) : Option (List (String × String)) :=
  if logFmt = "[${datetime}] ${msg}" then
    if line = "[2024-01-01 10:00] hello" then
      some [("datetime", "2024-01-01 10:00"), ("msg", "hello")]
    else if line = "[2024-99-99 10:00] bad" then
      some [("datetime", "2024-99-99 10:00"), ("msg", "bad")]
    else none
  else if logFmt = "${msg}" then some [("msg", line)]
  else none

/-- Unix time of Go's zero `Time`, which `time.Parse` returns with every error. -/
def zeroTimeUnix : Int := -62135596800

/-- Date parser of the sample environment: `time.Parse` on one value of the
default layout (10:00 UTC on 1 January 2024), and the zero `Time` with an error
otherwise. -/
def sampleTimeParse (layout value : String) : ParseResult :=
  if layout = "2006-01-02 15:04" ∧ value = "2024-01-01 10:00" then ⟨1704103200, false⟩
  else ⟨zeroTimeUnix, true⟩

/-- Sixteen-byte digest of the sample environment, standing in for MD5; each of
its bytes is at least `0xa0`, so that its hexadecimal rendering begins with a
letter and does not read as a number. -/
def sampleDigest (bs : List Nat) : List Nat :=
  (List.range 16).map (fun i => 160 + bs.foldl (fun a b => (a * 31 + b + i) % 96) i)

/-- The number that a string of decimal digits denotes. -/
def decimalValue (s : String) : Nat :=
  s.data.foldl (fun n c => 10 * n + (c.toNat - 48)) 0

/-- Column affinity of the sample environment, the part of sqlite's rule that
the examples need: a non-empty string of decimal digits denoting a number that
fits 64 bits is kept as that integer; everything else is kept as text (the
examples contain no signed, blank-padded, real or longer numeric literal). -/
def sampleAffinity (s : String) : Value :=
  if !s.data.isEmpty && s.data.all Char.isDigit && decide (decimalValue s ≤ 9223372036854775807)
  then .integer (decimalValue s)
  else .text s

/-- A line of 4096 bytes, the size of the buffer of `bufio.NewReader`. -/
def longLine : String := String.mk (List.replicate 4096 'a')

/-- File system of the sample environment.  `app.log` has three logical lines,
the first of them returned by `ReadLine` in two pieces.  `long.log` holds
`longLine` and no line end: `ReadLine` returns the full buffer with `isPrefix`
set, and `io.EOF` on the next call. -/
def sampleReadFile (fname : String) : Option (List (String × Bool)) :=
  if fname = "app.log" then
    some [("[2024-01-01 10:00] he", true), ("llo", false), ("not a log line", false),
      ("[2024-99-99 10:00] bad", false)]
  else if fname = "long.log" then some [(longLine, true)]
  else none

/-- Sample environment; the store refuses exactly the operation numbered
`fault`, if any. -/
def sampleEnv (fault : Option Nat) : Env where
  formatRead := sampleFormatRead
  timeParse := sampleTimeParse
  md5 := sampleDigest
  randInt := fun k => 1000 + 77 * k
  now := fun k => 1700000000 + k
  fails := fun k => decide (fault = some k)
  affinity := sampleAffinity
  readFile := sampleReadFile

/-- The default flags: layout `2006-01-02 15:04`, neither `compact` nor `relax`. -/
def defaultFlags : Flags := ⟨"2006-01-02 15:04", false, false⟩

/-- The default value of flag `fmt`. -/
def defaultFmt : String := "[${datetime}] ${msg}"

/-- An initialised, empty database with nothing done yet. -/
def emptyWorld : World := ⟨⟨[], [], [], 0⟩, none, 0, [], 0, 0, []⟩

/-! ## Lemmas on single store operations -/

theorem issue_false {env : Env} {op : Op} {w w1 : World} (h : issue env op w = (false, w1)) :
    w1 = { w with ops := w.ops + 1, trace := w.trace ++ [(op, false)] } := by
  unfold issue at h
  split at h
  · exact (Prod.mk.inj h).2.symm
  · split at h
    · exact (Prod.mk.inj h).2.symm
    · exact absurd (Prod.mk.inj h).1 (by decide)

theorem issue_true {env : Env} {op : Op} {w w1 : World} (h : issue env op w = (true, w1)) :
    env.fails w.ops = false ∧ ∃ w0, op.effect env w = some w0 ∧
      w1 = { w0 with ops := w.ops + 1, trace := w.trace ++ [(op, true)] } := by
  unfold issue at h
  split at h
  · exact absurd (Prod.mk.inj h).1 (by decide)
  · rename_i hf
    split at h
    · exact absurd (Prod.mk.inj h).1 (by decide)
    · rename_i w0 he
      exact ⟨by simpa using hf, w0, he, (Prod.mk.inj h).2.symm⟩

/-- Every operation is appended to the trace with its outcome and counted, and
touches neither the random source, the clock nor the log output. -/
theorem issue_frame (env : Env) (op : Op) (w : World) :
    (issue env op w).2.trace = w.trace ++ [(op, (issue env op w).1)] ∧
    (issue env op w).2.ops = w.ops + 1 ∧
    (issue env op w).2.rnd = w.rnd ∧ (issue env op w).2.clk = w.clk ∧
    (issue env op w).2.out = w.out := by
  unfold issue
  split
  · simp
  · split
    · simp
    · rename_i w0 he
      cases op <;> simp only [Op.effect] at he <;>
        first
        | (cases he; simp)
        | (split at he <;> first | (cases he; simp) | cases he)

theorem issue_false_store {env : Env} {op : Op} {w w1 : World}
    (h : issue env op w = (false, w1)) : w1.store = w.store ∧ w1.txn = w.txn := by
  rw [issue_false h]
  exact ⟨rfl, rfl⟩

theorem issue_insertEntry_true {env : Env} {log_id : Int} {entry_id entry_full : String}
    {entry_time : Int} {w w1 : World}
    (h : issue env (.insertEntry log_id entry_id entry_full entry_time) w = (true, w1)) :
    w1.store = { w.store with entries :=
      w.store.entries ++ [storedEntry env log_id entry_id entry_full entry_time] } ∧
    w1.txn = w.txn := by
  obtain ⟨_, w0, he, rfl⟩ := issue_true h
  simp only [Op.effect] at he
  split at he
  · cases he
  · cases he
    exact ⟨rfl, rfl⟩

theorem issue_insertString_true {env : Env} {column_name entry_id string_value : String}
    {w w1 : World}
    (h : issue env (.insertString column_name entry_id string_value) w = (true, w1)) :
    w1.store = { w.store with strings :=
      w.store.strings ++ [storedString env column_name entry_id string_value] } ∧
    w1.txn = w.txn := by
  obtain ⟨_, w0, he, rfl⟩ := issue_true h
  simp only [Op.effect] at he
  split at he
  · cases he
  · cases he
    exact ⟨rfl, rfl⟩

/-! ## Lemmas on `addLine` -/

/-- The loop over the mapping writes to table `strings` only. -/
theorem insertStrings_frame (env : Env) (entry_id : String) (data : List (String × String))
    (w : World) :
    (insertStrings env entry_id data w).2.store.logs = w.store.logs ∧
    (insertStrings env entry_id data w).2.store.entries = w.store.entries ∧
    (insertStrings env entry_id data w).2.store.seq = w.store.seq ∧
    (insertStrings env entry_id data w).2.txn = w.txn := by
  induction data generalizing w with
  | nil => simp [insertStrings]
  | cons kv rest ih =>
    obtain ⟨k, v⟩ := kv
    cases h : issue env (.insertString k entry_id v) w with
    | mk b w1 =>
      cases b
      · obtain ⟨hs, ht⟩ := issue_false_store h
        simp [insertStrings, h, hs, ht]
      · obtain ⟨hs, ht⟩ := issue_insertString_true h
        have := ih w1
        simp only [insertStrings, h]
        rw [this.1, this.2.1, this.2.2.1, this.2.2.2, hs, ht]
        exact ⟨rfl, rfl, rfl, rfl⟩

/-- When the loop over the mapping ends normally it has appended one row per pair. -/
theorem insertStrings_ok {env : Env} {entry_id : String} {data : List (String × String)}
    {w w1 : World} (h : insertStrings env entry_id data w = (.ok (), w1)) :
    w1.store.strings = w.store.strings ++ stringRows env entry_id data := by
  induction data generalizing w with
  | nil =>
    simp only [insertStrings] at h
    cases h
    simp [stringRows]
  | cons kv rest ih =>
    obtain ⟨k, v⟩ := kv
    cases hi : issue env (.insertString k entry_id v) w with
    | mk b w2 =>
      cases b
      · simp [insertStrings, hi] at h
      · simp only [insertStrings, hi] at h
        rw [ih h, (issue_insertString_true hi).1]
        simp [stringRows]

/-- Unfolding of `addLine` on a matched line. -/
theorem addLine_matched {env : Env} {flags : Flags} {log_id : Int} {logFmt line : String}
    {w : World} {data : List (String × String)} (hm : env.formatRead logFmt line = some data) :
    addLine env flags log_id logFmt line w =
      match issue env (.insertEntry log_id (entryId env log_id line w).1
            (if flags.compact then "" else line) (entryDate env flags log_id line data w))
          (resolveDate env flags data (env.now (entryId env log_id line w).2.clk)
            { (entryId env log_id line w).2 with
              clk := (entryId env log_id line w).2.clk + 1 }).2 with
      | (false, w1) => (.error (.store (.insertEntry log_id (entryId env log_id line w).1
            (if flags.compact then "" else line) (entryDate env flags log_id line data w))), w1)
      | (true, w1) => insertStrings env (entryId env log_id line w).1 data w1 := by
  simp only [addLine, hm, entryDate]

/-- Neither `entryId` nor the resolution of the date touches the store. -/
theorem resolveDate_store (env : Env) (flags : Flags) (data : List (String × String))
    (now : Int) (w : World) :
    (resolveDate env flags data now w).2.store = w.store ∧
    (resolveDate env flags data now w).2.txn = w.txn := by
  unfold resolveDate
  cases data.lookup "datetime" with
  | none => exact ⟨rfl, rfl⟩
  | some dt =>
    by_cases hf : (env.timeParse flags.dateLayout dt).failed = true <;> simp [hf, World.log]

theorem fillRandom_store (env : Env) (n i : Nat) (rbs : List Nat) (w : World) :
    (fillRandom env n i rbs w).2.store = w.store ∧ (fillRandom env n i rbs w).2.txn = w.txn ∧
    (fillRandom env n i rbs w).2.ops = w.ops ∧ (fillRandom env n i rbs w).2.trace = w.trace ∧
    (fillRandom env n i rbs w).2.out = w.out := by
  induction n generalizing i rbs w with
  | zero => simp [fillRandom]
  | succ n ih =>
    simp only [fillRandom]
    have := ih (i + 1) (rbs.set i (env.randInt w.rnd % 256)) { w with rnd := w.rnd + 1 }
    simpa using this

theorem entryId_store (env : Env) (log_id : Int) (line : String) (w : World) :
    (entryId env log_id line w).2.store = w.store ∧ (entryId env log_id line w).2.txn = w.txn := by
  have := fillRandom_store env 2 0 (List.replicate 8 0) w
  exact ⟨this.1, this.2.1⟩

/-- The world in which `addLine` issues its insert into `entries` has the store
it started from. -/
theorem addLine_insert_world (env : Env) (flags : Flags) (log_id : Int) (line : String)
    (data : List (String × String)) (w : World) :
    (resolveDate env flags data (env.now (entryId env log_id line w).2.clk)
      { (entryId env log_id line w).2 with
        clk := (entryId env log_id line w).2.clk + 1 }).2.store = w.store ∧
    (resolveDate env flags data (env.now (entryId env log_id line w).2.clk)
      { (entryId env log_id line w).2 with
        clk := (entryId env log_id line w).2.clk + 1 }).2.txn = w.txn := by
  have hd := resolveDate_store env flags data (env.now (entryId env log_id line w).2.clk)
    { (entryId env log_id line w).2 with clk := (entryId env log_id line w).2.clk + 1 }
  have he := entryId_store env log_id line w
  exact ⟨hd.1.trans he.1, hd.2.trans he.2⟩

/-- The tables after `addLine` on a matched line, whatever the outcome: `logs`
is untouched, and `entries` either is untouched (the insert was refused) or has
gained the one row built from the line. -/
theorem addLine_entries {env : Env} {flags : Flags} {log_id : Int} {logFmt line : String}
    {w : World} {data : List (String × String)} (hm : env.formatRead logFmt line = some data) :
    (addLine env flags log_id logFmt line w).2.store.logs = w.store.logs ∧
    (addLine env flags log_id logFmt line w).2.store.seq = w.store.seq ∧
    (addLine env flags log_id logFmt line w).2.txn = w.txn ∧
    ((addLine env flags log_id logFmt line w).2.store.entries = w.store.entries ∨
     (addLine env flags log_id logFmt line w).2.store.entries =
        w.store.entries ++ [entryRow env flags log_id line data w]) := by
  rw [addLine_matched hm]
  unfold entryRow
  obtain ⟨hd1, hd2⟩ := addLine_insert_world env flags log_id line data w
  generalize (resolveDate env flags data (env.now (entryId env log_id line w).2.clk)
    { (entryId env log_id line w).2 with clk := (entryId env log_id line w).2.clk + 1 }).2 = d at *
  generalize entryDate env flags log_id line data w = t
  generalize (entryId env log_id line w).1 = eid
  generalize (if flags.compact then "" else line) = full
  cases hi : issue env (.insertEntry log_id eid full t) d with
  | mk b w1 =>
    cases b
    · obtain ⟨hs, ht⟩ := issue_false_store hi
      simp [hs, ht, hd1, hd2]
    · obtain ⟨hs, ht⟩ := issue_insertEntry_true hi
      have hf := insertStrings_frame env eid data w1
      simp only
      rw [hf.1, hf.2.1, hf.2.2.1, hf.2.2.2, hs, ht, hd2]
      simp [hd1]

/-- The tables after `addLine` has returned normally on a matched line. -/
theorem addLine_ok {env : Env} {flags : Flags} {log_id : Int} {logFmt line : String}
    {w w1 : World} {data : List (String × String)}
    (hm : env.formatRead logFmt line = some data)
    (hok : addLine env flags log_id logFmt line w = (.ok (), w1)) :
    w1.store.logs = w.store.logs ∧ w1.store.seq = w.store.seq ∧ w1.txn = w.txn ∧
    w1.store.entries = w.store.entries ++ [entryRow env flags log_id line data w] ∧
    w1.store.strings =
      w.store.strings ++ stringRows env (entryId env log_id line w).1 data := by
  rw [addLine_matched hm] at hok
  unfold entryRow
  obtain ⟨hd1, hd2⟩ := addLine_insert_world env flags log_id line data w
  generalize (resolveDate env flags data (env.now (entryId env log_id line w).2.clk)
    { (entryId env log_id line w).2 with clk := (entryId env log_id line w).2.clk + 1 }).2 = d at *
  generalize entryDate env flags log_id line data w = t at *
  generalize (entryId env log_id line w).1 = eid at *
  generalize (if flags.compact then "" else line) = full at *
  cases hi : issue env (.insertEntry log_id eid full t) d with
  | mk b w2 =>
    rw [hi] at hok
    cases b
    · simp at hok
    · obtain ⟨hs, ht⟩ := issue_insertEntry_true hi
      have hf := insertStrings_frame env eid data w2
      have hstr := insertStrings_ok hok
      simp only at hok
      rw [hok] at hf
      simp only at hf
      rw [hf.1, hf.2.1, hf.2.2.1, hf.2.2.2, hstr, hs, ht, hd2]
      simp [hd1]

theorem lookup_mem {k v : String} {data : List (String × String)}
    (h : data.lookup k = some v) : (k, v) ∈ data := by
  induction data with
  | nil => simp at h
  | cons kv rest ih =>
    obtain ⟨k1, v1⟩ := kv
    by_cases hk : k = k1
    · subst hk
      simp [List.lookup] at h
      simp [h]
    · have hb : (k == k1) = false := by simpa using hk
      simp only [List.lookup, hb] at h
      exact List.mem_cons_of_mem _ (ih h)

/-- When the mapping has a "datetime" key, the date that reaches the insert is
the `Time` that `time.Parse` returned, whether or not it also returned an error. -/
theorem resolveDate_datetime (env : Env) (flags : Flags) {data : List (String × String)}
    {dt : String} (now : Int) (w : World) (hdt : data.lookup "datetime" = some dt) :
    (resolveDate env flags data now w).1 = (env.timeParse flags.dateLayout dt).date := by
  simp [resolveDate, hdt]

/-- On a matched line with a "datetime" key, the `entry_time` of the row written
is the Unix time of the `Time` returned by `time.Parse`, also when the parse
failed: the reading of the clock taken before is overwritten either way. -/
theorem addLine_datetime_entry_time {env : Env} {flags : Flags} {log_id : Int}
    {logFmt line : String} {w : World} {data : List (String × String)} {dt : String}
    (hm : env.formatRead logFmt line = some data) (hdt : data.lookup "datetime" = some dt)
    (hw : (addLine env flags log_id logFmt line w).2.store.entries ≠ w.store.entries) :
    ∃ row : EntryRow,
      (addLine env flags log_id logFmt line w).2.store.entries = w.store.entries ++ [row] ∧
      row.entry_time = (env.timeParse flags.dateLayout dt).date := by
  rcases (@addLine_entries env flags log_id logFmt line w data hm).2.2.2 with h | h
  · exact absurd h hw
  · exact ⟨_, h, resolveDate_datetime env flags _ _ hdt⟩

/-- On a matched line for which `addLine` writes a row of `entries`, the
`entry_full` that the row holds is what the column keeps of the empty string
when `compact` is set, and of the source line when it is not. -/
theorem addLine_entry_full_stored {env : Env} {flags : Flags} {log_id : Int}
    {logFmt line : String} {w : World} {data : List (String × String)}
    (hm : env.formatRead logFmt line = some data)
    (hw : (addLine env flags log_id logFmt line w).2.store.entries ≠ w.store.entries) :
    ∃ row : EntryRow,
      (addLine env flags log_id logFmt line w).2.store.entries = w.store.entries ++ [row] ∧
      (flags.compact = true → row.entry_full = env.affinity "") ∧
      (flags.compact = false → row.entry_full = env.affinity line) := by
  rcases (@addLine_entries env flags log_id logFmt line w data hm).2.2.2 with h | h
  · exact absurd h hw
  · refine ⟨_, h, ?_, ?_⟩ <;> intro hc <;> simp [entryRow, storedEntry, hc]

/-! ## Claims on `addLine` and `entryId` -/

/-- C1: when the matcher accepts the line and `addLine` returns normally (every
store write succeeded), table `entries` has gained exactly one row, with the
given log id and the id returned by `entryId`, table `strings` has gained
exactly one row per pair of the extracted mapping, each with the entry id of
that new `entries` row, and table `logs` is unchanged.  The id, like every text
the program binds, is held as the columns keep bound text, alike in both
tables. -/
theorem addLine_adds_entry_and_strings (env : Env) (flags : Flags) (log_id : Int)
    (logFmt line : String) (data : List (String × String)) (w w1 : World)
    (hm : env.formatRead logFmt line = some data)
    (hok : addLine env flags log_id logFmt line w = (.ok (), w1)) :
    (∃ row : EntryRow, row.log_id = log_id ∧
      row.entry_id = env.affinity (entryId env log_id line w).1 ∧
      w1.store.entries = w.store.entries ++ [row] ∧
      w1.store.strings = w.store.strings ++
        data.map (fun kv => (⟨env.affinity kv.1, row.entry_id, env.affinity kv.2⟩ : StringRow))) ∧
    w1.store.logs = w.store.logs := by
  obtain ⟨hl, _, _, he, hs⟩ := addLine_ok hm hok
  exact ⟨⟨entryRow env flags log_id line data w, rfl, rfl, he, hs⟩, hl⟩

theorem addLine_adds_entry_and_strings_witness :
    (∃ row : EntryRow, row.log_id = 1 ∧
      row.entry_id = (sampleEnv none).affinity
        (entryId (sampleEnv none) 1 "[2024-01-01 10:00] hello" emptyWorld).1 ∧
      (addLine (sampleEnv none) defaultFlags 1 defaultFmt "[2024-01-01 10:00] hello"
        emptyWorld).2.store.entries = emptyWorld.store.entries ++ [row] ∧
      (addLine (sampleEnv none) defaultFlags 1 defaultFmt "[2024-01-01 10:00] hello"
        emptyWorld).2.store.strings = emptyWorld.store.strings ++
          [("datetime", "2024-01-01 10:00"), ("msg", "hello")].map
            (fun kv => (⟨(sampleEnv none).affinity kv.1, row.entry_id,
              (sampleEnv none).affinity kv.2⟩ : StringRow))) ∧
    (addLine (sampleEnv none) defaultFlags 1 defaultFmt "[2024-01-01 10:00] hello"
      emptyWorld).2.store.logs = emptyWorld.store.logs :=
  addLine_adds_entry_and_strings (sampleEnv none) defaultFlags 1 defaultFmt
    "[2024-01-01 10:00] hello" [("datetime", "2024-01-01 10:00"), ("msg", "hello")]
    emptyWorld _ (by decide) (Prod.ext (by decide) rfl)

/-- C2: when the matcher rejects the line, `addLine` returns normally and leaves
the store as it was, issuing no operation on it, with `relax` set or not; the
flag only decides whether the one warning is logged. -/
theorem addLine_rejected_line_dropped (env : Env) (flags : Flags) (log_id : Int)
    (logFmt line : String) (w : World) (hm : env.formatRead logFmt line = none) :
    (addLine env flags log_id logFmt line w).1 = .ok () ∧
    (addLine env flags log_id logFmt line w).2.store = w.store ∧
    (addLine env flags log_id logFmt line w).2.txn = w.txn ∧
    (addLine env flags log_id logFmt line w).2.trace = w.trace ∧
    (addLine env flags log_id logFmt line w).2.out =
      if flags.relax then w.out else w.out ++ [.errorReadingLine line] := by
  simp only [addLine, hm]
  cases flags.relax <;> simp [World.log]

theorem addLine_rejected_line_dropped_witness :
    (addLine (sampleEnv none) defaultFlags 1 defaultFmt "not a log line" emptyWorld).1
      = .ok () ∧
    (addLine (sampleEnv none) defaultFlags 1 defaultFmt "not a log line" emptyWorld).2.store
      = emptyWorld.store ∧
    (addLine (sampleEnv none) defaultFlags 1 defaultFmt "not a log line" emptyWorld).2.txn
      = emptyWorld.txn ∧
    (addLine (sampleEnv none) defaultFlags 1 defaultFmt "not a log line" emptyWorld).2.trace
      = emptyWorld.trace ∧
    (addLine (sampleEnv none) defaultFlags 1 defaultFmt "not a log line" emptyWorld).2.out =
      if defaultFlags.relax then emptyWorld.out
      else emptyWorld.out ++ [.errorReadingLine "not a log line"] :=
  addLine_rejected_line_dropped (sampleEnv none) defaultFlags 1 defaultFmt "not a log line"
    emptyWorld (by decide)

/-- C3 (the code departs from the claim): on the line `[2024-99-99 10:00] bad`,
whose "datetime" value does not parse, `addLine` creates the entry, and the
`entry_time` it stores is the Unix time of the zero `Time` that `time.Parse`
returned with its error, not the reading 1700000000 of the clock taken in
`addLine`. -/
theorem addLine_unparsable_date_entry_time :
    (addLine (sampleEnv none) defaultFlags 1 defaultFmt "[2024-99-99 10:00] bad"
      emptyWorld).1 = .ok () ∧
    (sampleEnv none).formatRead defaultFmt "[2024-99-99 10:00] bad"
      = some [("datetime", "2024-99-99 10:00"), ("msg", "bad")] ∧
    ((sampleEnv none).timeParse defaultFlags.dateLayout "2024-99-99 10:00").failed = true ∧
    (sampleEnv none).now emptyWorld.clk = 1700000000 ∧
    (addLine (sampleEnv none) defaultFlags 1 defaultFmt "[2024-99-99 10:00] bad"
      emptyWorld).2.store.entries.map (fun r => r.entry_time) = [-62135596800] := by
  decide

/-- C4 (the code departs from the claim): on the line `007`, accepted under the
template `${msg}` with `compact` unset, `addLine` writes an entries row whose
`entry_full` is the integer 7 and not the source line: the value is bound as
text to a column that `initStmts` declares `STRING`, a type name that gives the
column NUMERIC affinity. -/
theorem addLine_entry_full_numeric_line :
    (sampleEnv none).formatRead "${msg}" "007" = some [("msg", "007")] ∧
    defaultFlags.compact = false ∧
    (addLine (sampleEnv none) defaultFlags 1 "${msg}" "007" emptyWorld).1 = .ok () ∧
    (addLine (sampleEnv none) defaultFlags 1 "${msg}" "007" emptyWorld).2.store.entries.map
      (fun r => r.entry_full) = [.integer 7] ∧
    (addLine (sampleEnv none) defaultFlags 1 "${msg}" "007" emptyWorld).2.store.entries.map
      (fun r => r.entry_full) ≠ [.text "007"] := by
  decide

/-- C8 as stated fails: on the line `[2024-01-01 10:00] hello` under the
template `[${datetime}] ${msg}`, `addLine` writes two rows of `strings`, one for
"datetime" and one for "msg", and not the single row (msg, hello). -/
theorem addLine_example_writes_datetime_row :
    (addLine (sampleEnv none) defaultFlags 1 "[${datetime}] ${msg}"
      "[2024-01-01 10:00] hello" emptyWorld).1 = .ok () ∧
    (addLine (sampleEnv none) defaultFlags 1 "[${datetime}] ${msg}"
      "[2024-01-01 10:00] hello" emptyWorld).2.store.strings.map
        (fun r => (r.column_name, r.string_value))
      = [(.text "datetime", .text "2024-01-01 10:00"), (.text "msg", .text "hello")] ∧
    (addLine (sampleEnv none) defaultFlags 1 "[${datetime}] ${msg}"
      "[2024-01-01 10:00] hello" emptyWorld).2.store.strings.map
        (fun r => (r.column_name, r.string_value))
      ≠ [(.text "msg", .text "hello")] := by
  decide

/-- C8, amended: on a matched line whose "datetime" value parses, `addLine`
creates one entry whose `entry_time` is the parsed instant, and the rows of
`strings` it writes are all the extracted pairs, the pair of the reserved
"datetime" field among them. -/
theorem addLine_parsed_date_and_all_pairs (env : Env) (flags : Flags) (log_id : Int)
    (logFmt line : String) (data : List (String × String)) (dt : String) (w w1 : World)
    (hm : env.formatRead logFmt line = some data)
    (hdt : data.lookup "datetime" = some dt)
    (_hp : (env.timeParse flags.dateLayout dt).failed = false)
    (hok : addLine env flags log_id logFmt line w = (.ok (), w1)) :
    (∃ row : EntryRow, w1.store.entries = w.store.entries ++ [row] ∧
      row.entry_time = (env.timeParse flags.dateLayout dt).date) ∧
    w1.store.strings = w.store.strings ++
      data.map (fun kv => (⟨env.affinity kv.1, env.affinity (entryId env log_id line w).1,
        env.affinity kv.2⟩ : StringRow)) ∧
    (⟨env.affinity "datetime", env.affinity (entryId env log_id line w).1,
        env.affinity dt⟩ : StringRow) ∈ w1.store.strings := by
  obtain ⟨_, _, _, he, hs⟩ := addLine_ok hm hok
  refine ⟨⟨_, he, ?_⟩, hs, ?_⟩
  · exact resolveDate_datetime env flags _ _ hdt
  · rw [hs]
    apply List.mem_append_right
    exact List.mem_map.mpr ⟨("datetime", dt), lookup_mem hdt, rfl⟩

theorem addLine_parsed_date_and_all_pairs_witness :
    (∃ row : EntryRow,
      (addLine (sampleEnv none) defaultFlags 1 defaultFmt "[2024-01-01 10:00] hello"
        emptyWorld).2.store.entries = emptyWorld.store.entries ++ [row] ∧
      row.entry_time =
        ((sampleEnv none).timeParse defaultFlags.dateLayout "2024-01-01 10:00").date) ∧
    (addLine (sampleEnv none) defaultFlags 1 defaultFmt "[2024-01-01 10:00] hello"
      emptyWorld).2.store.strings = emptyWorld.store.strings ++
        [("datetime", "2024-01-01 10:00"), ("msg", "hello")].map
          (fun kv => (⟨(sampleEnv none).affinity kv.1,
            (sampleEnv none).affinity
              (entryId (sampleEnv none) 1 "[2024-01-01 10:00] hello" emptyWorld).1,
            (sampleEnv none).affinity kv.2⟩ : StringRow)) ∧
    (⟨(sampleEnv none).affinity "datetime",
        (sampleEnv none).affinity
          (entryId (sampleEnv none) 1 "[2024-01-01 10:00] hello" emptyWorld).1,
        (sampleEnv none).affinity "2024-01-01 10:00"⟩ : StringRow) ∈
      (addLine (sampleEnv none) defaultFlags 1 defaultFmt "[2024-01-01 10:00] hello"
        emptyWorld).2.store.strings :=
  addLine_parsed_date_and_all_pairs (sampleEnv none) defaultFlags 1 defaultFmt
    "[2024-01-01 10:00] hello" [("datetime", "2024-01-01 10:00"), ("msg", "hello")]
    "2024-01-01 10:00" emptyWorld _ (by decide) (by decide) (by decide)
    (Prod.ext (by decide) rfl)

/-- C10 (the code departs from the claim): of the eight bytes `rbs` that
`entryId` feeds to the digest, only `rbs[0]` and `rbs[1]` are low bytes of a
`rand.Int()` draw; `rbs[2]` to `rbs[7]` are zero whatever the random source
returns, and `entryId` takes two draws. -/
theorem randomBytes_two_draws (env : Env) (log_id : Int) (line : String) (w : World) :
    (randomBytes env w).1 =
      [env.randInt w.rnd % 256, env.randInt (w.rnd + 1) % 256, 0, 0, 0, 0, 0, 0] ∧
    (randomBytes env w).2.rnd = w.rnd + 2 ∧
    (entryId env log_id line w).1 =
      hexEncode (env.md5 (entryIdInput
        [env.randInt w.rnd % 256, env.randInt (w.rnd + 1) % 256, 0, 0, 0, 0, 0, 0]
        log_id line)) :=
  ⟨rfl, rfl, rfl⟩

/-! ## Lemmas and claim on `getLog` -/

theorem issue_neutral {env : Env} {op : Op} {w w1 : World} {b : Bool}
    (h : issue env op w = (b, w1)) (hn : op.effect env w = some w) :
    w1.store = w.store ∧ w1.txn = w.txn := by
  cases b
  · exact issue_false_store h
  · obtain ⟨_, w0, he, rfl⟩ := issue_true h
    rw [hn] at he
    cases he
    exact ⟨rfl, rfl⟩

theorem issue_insertLog_true {env : Env} {lname fname : String} {w w1 : World}
    (h : issue env (.insertLog lname fname) w = (true, w1)) :
    w1.store = withNewLog w.store (env.affinity lname) (env.affinity fname) ∧
    w1.txn = w.txn := by
  obtain ⟨_, w0, he, rfl⟩ := issue_true h
  simp only [Op.effect] at he
  split at he
  · cases he
  · cases he
    exact ⟨rfl, rfl⟩

theorem finalize_store (env : Env) (w : World) :
    (finalize env w).store = w.store ∧ (finalize env w).txn = w.txn := by
  unfold finalize
  cases h : issue env .findFinalize w with
  | mk b w1 =>
    obtain ⟨hs, ht⟩ := issue_neutral h rfl
    cases b <;> simp [World.log, hs, ht]

theorem findNext_cases (env : Env) (lname : String) (w : World) :
    (findNext env lname w).2.store = w.store ∧ (findNext env lname w).2.txn = w.txn ∧
    match (findNext env lname w).1 with
    | .row id => ∃ r, w.store.logs.find? (fun r => r.log_name == env.affinity lname) = some r ∧ r.log_id = id
    | .done => w.store.logs.find? (fun r => r.log_name == env.affinity lname) = none
    | .err => True := by
  unfold findNext
  cases h : issue env .findNext w with
  | mk b w1 =>
    obtain ⟨hs, ht⟩ := issue_neutral h rfl
    cases b
    · simp [hs, ht]
    · simp only [hs]
      cases hf : w.store.logs.find? (fun r => r.log_name == env.affinity lname) with
      | none => simp [hs, ht, hf]
      | some r => simp [hs, ht, hf]

theorem find_withNewLog {s : Store} {name file : Value}
    (hf : s.logs.find? (fun r => r.log_name == name) = none) :
    (withNewLog s name file).logs.find? (fun r => r.log_name == name)
      = some ⟨nextLogId s, name, file⟩ := by
  simp [withNewLog, List.find?_append, hf]

theorem getLog_cases (env : Env) (lname fname : String) (w : World) :
    (getLog env lname fname w).2.txn = w.txn ∧
    match w.store.logs.find? (fun r => r.log_name == env.affinity lname) with
    | some row => (getLog env lname fname w).2.store = w.store ∧
        ∀ id, (getLog env lname fname w).1 = .ok id → id = row.log_id
    | none =>
      ((getLog env lname fname w).2.store = w.store ∧
        ∀ id, (getLog env lname fname w).1 ≠ .ok id) ∨
      ((getLog env lname fname w).2.store = withNewLog w.store (env.affinity lname) (env.affinity fname) ∧
        ∀ id, (getLog env lname fname w).1 = .ok id → id = nextLogId w.store) := by
  unfold getLog
  cases h1 : issue env .prepareFind w with
  | mk b1 w1 =>
  obtain ⟨s1, t1⟩ := issue_neutral h1 rfl
  rw [← s1, ← t1]
  clear h1 s1 t1
  cases b1
  · cases w1.store.logs.find? (fun r => r.log_name == env.affinity lname) <;> simp
  dsimp only
  cases h2 : issue env (.findExec lname) w1 with
  | mk b2 w2 =>
  obtain ⟨s2, t2⟩ := issue_neutral h2 rfl
  rw [← s2, ← t2]
  clear h2 s2 t2
  cases b2
  · cases w2.store.logs.find? (fun r => r.log_name == env.affinity lname) <;> simp
  dsimp only
  obtain ⟨s3, t3, c3⟩ := findNext_cases env lname w2
  cases h3 : findNext env lname w2 with
  | mk n3 w3 =>
  rw [h3] at s3 t3 c3
  simp only at s3 t3 c3
  rw [← s3, ← t3]
  rw [← s3] at c3
  clear h3 s3 t3
  cases n3 with
  | err =>
    cases w3.store.logs.find? (fun r => r.log_name == env.affinity lname) <;> simp
  | row id =>
    obtain ⟨r, hr, hid⟩ := c3
    rw [hr]
    dsimp only
    cases h4 : issue env .findScan w3 with
    | mk b4 w4 =>
    obtain ⟨s4, t4⟩ := issue_neutral h4 rfl
    cases b4
    · simp [s4, t4]
    · have hfin := finalize_store env (w4.log (.usingLog lname id))
      simp only [hfin.1, hfin.2]
      simp [World.log, s4, t4, hid]
  | done =>
    rw [c3]
    dsimp only
    cases h4 : issue env (.insertLog lname fname) w3 with
    | mk b4 w4 =>
    cases b4
    · obtain ⟨s4, t4⟩ := issue_false_store h4
      simp [s4, t4]
    dsimp only
    obtain ⟨s4, t4⟩ := issue_insertLog_true h4
    rw [← s4, ← t4]
    have c4 := @find_withNewLog w3.store (env.affinity lname) (env.affinity fname) c3
    rw [← s4] at c4
    have hid : nextLogId w3.store =
        (⟨nextLogId w3.store, env.affinity lname, env.affinity fname⟩ : LogRow).log_id := rfl
    generalize (⟨nextLogId w3.store, env.affinity lname, env.affinity fname⟩ : LogRow)
      = newrow at c4 hid
    rw [hid]
    clear h4 s4 t4 c3 hid
    cases h5 : issue env .findReset w4 with
    | mk b5 w5 =>
    obtain ⟨s5, t5⟩ := issue_neutral h5 rfl
    rw [← s5, ← t5]
    rw [← s5] at c4
    clear h5 s5 t5
    cases b5
    · simp
    dsimp only
    cases h6 : issue env (.findExec lname) w5 with
    | mk b6 w6 =>
    obtain ⟨s6, t6⟩ := issue_neutral h6 rfl
    rw [← s6, ← t6]
    rw [← s6] at c4
    clear h6 s6 t6
    cases b6
    · simp
    dsimp only
    obtain ⟨s7, t7, c7⟩ := findNext_cases env lname w6
    cases h7 : findNext env lname w6 with
    | mk n7 w7 =>
    rw [h7] at s7 t7 c7
    simp only at s7 t7 c7
    rw [← s7, ← t7]
    rw [← s7] at c7 c4
    cases n7 with
    | err => simp
    | done => simp
    | row id =>
      obtain ⟨r, hr, hid⟩ := c7
      rw [c4] at hr
      cases hr
      dsimp only
      cases h8 : issue env .findScan w7 with
      | mk b8 w8 =>
      obtain ⟨s8, t8⟩ := issue_neutral h8 rfl
      cases b8
      · simp [s8, t8]
      · have hfin := finalize_store env (w8.log (.createdLog lname id))
        simp only [hfin.1, hfin.2]
        simp [World.log, s8, t8, hid]

/-- On a schedule without faults, and with a key left for a new row, `getLog`
returns an id. -/
theorem getLog_no_fault (env : Env) (lname fname : String) (w : World)
    (hno : ∀ k, env.fails (w.ops + k) = false) (hk : nextLogId w.store ≤ maxRowid) :
    ∃ id, (getLog env lname fname w).1 = .ok id := by
  have hk1 : ¬ maxRowid < nextLogId w.store := not_lt.mpr hk
  have h0 : env.fails w.ops = false := hno 0
  have h1 : env.fails (w.ops + 1) = false := hno 1
  have h2 : env.fails (w.ops + 1 + 1) = false := hno 2
  have h3 : env.fails (w.ops + 1 + 1 + 1) = false := hno 3
  have h4 : env.fails (w.ops + 1 + 1 + 1 + 1) = false := hno 4
  have h5 : env.fails (w.ops + 1 + 1 + 1 + 1 + 1) = false := hno 5
  have h6 : env.fails (w.ops + 1 + 1 + 1 + 1 + 1 + 1) = false := hno 6
  have h7 : env.fails (w.ops + 1 + 1 + 1 + 1 + 1 + 1 + 1) = false := hno 7
  have h8 : env.fails (w.ops + 1 + 1 + 1 + 1 + 1 + 1 + 1 + 1) = false := hno 8
  cases hf : w.store.logs.find? (fun r => r.log_name == env.affinity lname) with
  | some row =>
    exact ⟨row.log_id, by
      simp [getLog, findNext, finalize, issue, Op.effect, World.log, h0, h1, h2, h3, hf]⟩
  | none =>
    exact ⟨nextLogId w.store, by
      simp [getLog, findNext, finalize, issue, Op.effect, World.log, h0, h1, h2, h3, h4, h5,
        h6, h7, h8, hf, hk1, withNewLog, List.find?_append]⟩

theorem foldl_max_bound (l : List LogRow) (m : Int) :
    m ≤ l.foldl (fun m r => max m r.log_id) m ∧
    ∀ r ∈ l, r.log_id ≤ l.foldl (fun m r => max m r.log_id) m := by
  induction l generalizing m with
  | nil => simp
  | cons a rest ih =>
    obtain ⟨h1, h2⟩ := ih (max m a.log_id)
    refine ⟨le_trans (le_max_left _ _) h1, ?_⟩
    intro r hr
    rcases List.mem_cons.mp hr with rfl | hr
    · exact le_trans (le_max_right _ _) h1
    · exact h2 r hr

/-- The key that AUTOINCREMENT generates is not the key of any row present. -/
theorem nextLogId_fresh (s : Store) : ∀ r ∈ s.logs, r.log_id ≠ nextLogId s := by
  intro r hr h
  have := (foldl_max_bound s.logs s.seq).2 r hr
  unfold nextLogId at h
  omega

theorem find_name_none {logs : List LogRow} {name : Value} :
    logs.find? (fun r => r.log_name == name) = none ↔ ∀ r ∈ logs, r.log_name ≠ name := by
  simp [List.find?_eq_none]

/-- What `getLog` does, in terms of the names as the store keeps them: on a
schedule without faults, with a key left, it returns an id.  Whenever it returns
an id: if a row of `logs` holds the stored form of the name, the id is that of
such a row and `logs` is unchanged; if none does, `logs` has gained exactly one
row, holding the stored forms of the name and of the file name under the
returned id, which is the freshly generated key; and a second call with the same
name that returns gives the same id and adds no row.  Whatever the outcome, if
no two rows of `logs` held the same name before the call, none do after it. -/
theorem getLog_stored_name (env : Env) (lname fname : String) (w : World) :
    ((∀ k, env.fails (w.ops + k) = false) → nextLogId w.store ≤ maxRowid →
      ∃ id, (getLog env lname fname w).1 = .ok id) ∧
    (∀ id w1, getLog env lname fname w = (.ok id, w1) →
      ((∃ r ∈ w.store.logs, r.log_name = env.affinity lname) →
        (∃ r ∈ w.store.logs, r.log_name = env.affinity lname ∧ r.log_id = id) ∧
        w1.store.logs = w.store.logs) ∧
      ((∀ r ∈ w.store.logs, r.log_name ≠ env.affinity lname) →
        w1.store.logs = w.store.logs ++ [⟨id, env.affinity lname, env.affinity fname⟩] ∧
        id = nextLogId w.store ∧ ∀ r ∈ w.store.logs, r.log_id ≠ id) ∧
      (∀ fname2 id2 w2, getLog env lname fname2 w1 = (.ok id2, w2) →
        id2 = id ∧ w2.store.logs = w1.store.logs)) ∧
    ((w.store.logs.map (fun r => r.log_name)).Nodup →
      ((getLog env lname fname w).2.store.logs.map (fun r => r.log_name)).Nodup) := by
  have hc := (getLog_cases env lname fname w).2
  refine ⟨getLog_no_fault env lname fname w, ?_, ?_⟩
  · intro id w1 h
    rw [h] at hc
    cases hf : w.store.logs.find? (fun r => r.log_name == env.affinity lname) with
    | some row =>
      rw [hf] at hc
      obtain ⟨hs, hid⟩ := hc
      have hrow : row ∈ w.store.logs ∧ row.log_name = env.affinity lname :=
        ⟨List.mem_of_find?_eq_some hf, by simpa using List.find?_some hf⟩
      have hid1 : id = row.log_id := hid id rfl
      refine ⟨fun _ => ⟨⟨row, hrow.1, hrow.2, hid1.symm⟩, by simp only at hs; rw [hs]⟩, ?_, ?_⟩
      · intro hn
        exact absurd hrow.2 (hn row hrow.1)
      · intro fname2 id2 w2 h2
        have hc2 := (getLog_cases env lname fname2 w1).2
        simp only at hs
        rw [h2, hs, hf] at hc2
        exact ⟨(hc2.2 id2 rfl).trans hid1.symm, by rw [hc2.1, hs]⟩
    | none =>
      rw [hf] at hc
      rcases hc with ⟨_, hne⟩ | ⟨hs, hid⟩
      · exact absurd rfl (hne id)
      · have hid1 : id = nextLogId w.store := hid id rfl
        simp only at hs
        refine ⟨?_, fun _ => ⟨by rw [hs, hid1]; rfl, hid1, ?_⟩, ?_⟩
        · rintro ⟨r, hr, hrn⟩
          exact absurd hrn (find_name_none.mp hf r hr)
        · intro r hr
          rw [hid1]
          exact nextLogId_fresh w.store r hr
        · intro fname2 id2 w2 h2
          have hc2 := (getLog_cases env lname fname2 w1).2
          rw [h2, hs, find_withNewLog hf] at hc2
          exact ⟨(hc2.2 id2 rfl).trans hid1.symm, by rw [hc2.1, hs]⟩
  · intro hnd
    cases hf : w.store.logs.find? (fun r => r.log_name == env.affinity lname) with
    | some row =>
      rw [hf] at hc
      rw [hc.1]
      exact hnd
    | none =>
      rw [hf] at hc
      rcases hc with ⟨hs, _⟩ | ⟨hs, _⟩
      · rw [hs]
        exact hnd
      · rw [hs]
        simp only [withNewLog, List.map_append, List.map_cons, List.map_nil]
        rw [List.nodup_append]
        refine ⟨hnd, List.nodup_singleton _, ?_⟩
        intro a ha hb
        rw [List.mem_singleton] at hb
        subst hb
        obtain ⟨r, hr, hrn⟩ := List.mem_map.mp ha
        exact find_name_none.mp hf r hr hrn

set_option maxRecDepth 100000 in
/-- C5 (the code departs from the claim): in a store in which `getLog("123", "123")`
has created the row with id 1, no row of `logs` has the name `0123`, and yet
`getLog("0123", "0123")` returns the id 1 of that row and adds no row: column
`log_name` is declared `STRING`, which gives it NUMERIC affinity, so both names
are kept and compared as the integer 123. -/
theorem getLog_numeric_names_collide :
    (getLog (sampleEnv none) "123" "123" emptyWorld).1 = .ok 1 ∧
    (getLog (sampleEnv none) "123" "123" emptyWorld).2.store.logs
      = [⟨1, .integer 123, .integer 123⟩] ∧
    (getLog (sampleEnv none) "0123" "0123"
      (getLog (sampleEnv none) "123" "123" emptyWorld).2).1 = .ok 1 ∧
    (getLog (sampleEnv none) "0123" "0123"
      (getLog (sampleEnv none) "123" "123" emptyWorld).2).2.store.logs
      = [⟨1, .integer 123, .integer 123⟩] := by
  decide

/-! ## Lemmas and claims on `readLog` -/

theorem extends_refl (w : World) : Extends w w :=
  ⟨[], by simp, by intro ev h; cases h⟩

theorem extends_trans {w w1 w2 : World} (h1 : Extends w w1) (h2 : Extends w1 w2) :
    Extends w w2 := by
  obtain ⟨e1, t1, q1⟩ := h1
  obtain ⟨e2, t2, q2⟩ := h2
  refine ⟨e1 ++ e2, by rw [t2, t1, List.append_assoc], ?_⟩
  intro ev hev
  rcases List.mem_append.mp hev with h | h
  · exact q1 ev h
  · exact q2 ev h

theorem extends_log (w : World) (m : LogMsg) : Extends w (w.log m) :=
  ⟨[], by simp [World.log], by intro ev h; cases h⟩

theorem extends_issue (env : Env) {op : Op} (w : World)
    (hq : op ≠ .begin ∧ op ≠ .commit ∧ op ≠ .rollback) : Extends w (issue env op w).2 := by
  refine ⟨[(op, (issue env op w).1)], (issue_frame env op w).1, ?_⟩
  intro ev hev
  rw [List.mem_singleton] at hev
  subst hev
  exact hq

theorem extends_of_issue {env : Env} {op : Op} {w w1 : World} {b : Bool}
    (hq : op ≠ .begin ∧ op ≠ .commit ∧ op ≠ .rollback) (h : issue env op w = (b, w1)) :
    Extends w w1 := by
  have := extends_issue env w hq
  rwa [h] at this

theorem tracks_of_extends {α : Type} {w w1 : World} {r : Except Panic α × World}
    (h1 : Extends w w1) (h2 : Tracks w1 r) : Tracks w r := by
  obtain ⟨e1, t1, q1⟩ := h1
  obtain ⟨e2, t2, q2, m2⟩ := h2
  refine ⟨e1 ++ e2, by rw [t2, t1, List.append_assoc], ?_, ?_⟩
  · intro ev hev
    rcases List.mem_append.mp hev with h | h
    · exact q1 ev h
    · exact q2 ev h
  · intro op hop
    exact List.mem_append_right _ (m2 op hop)

theorem tracks_extends {α : Type} {w : World} {r : Except Panic α × World}
    (h : Tracks w r) : Extends w r.2 := by
  obtain ⟨e, t, q, _⟩ := h
  exact ⟨e, t, q⟩

theorem tracks_of_not_store {α : Type} {w : World} {r : Except Panic α × World}
    (h : Extends w r.2) (hne : ∀ op, r.1 ≠ .error (.store op)) : Tracks w r := by
  obtain ⟨e, t, q⟩ := h
  exact ⟨e, t, q, fun op hop => absurd hop (hne op)⟩

theorem tracks_of_issue_false {α : Type} {env : Env} {op : Op} {w w1 : World}
    (hq : op ≠ .begin ∧ op ≠ .commit ∧ op ≠ .rollback) (h : issue env op w = (false, w1)) :
    @Tracks α w (.error (.store op), w1) := by
  have ht := (issue_frame env op w).1
  rw [h] at ht
  refine ⟨[(op, false)], ht, ?_, ?_⟩
  · intro ev hev
    rw [List.mem_singleton] at hev
    subst hev
    exact hq
  · intro op1 hop
    cases hop
    exact List.mem_singleton.mpr rfl

theorem insertStrings_tracks (env : Env) (entry_id : String) (data : List (String × String))
    (w : World) : Tracks w (insertStrings env entry_id data w) := by
  induction data generalizing w with
  | nil => exact tracks_of_not_store (extends_refl w) (by intro op h; cases h)
  | cons kv rest ih =>
    obtain ⟨k, v⟩ := kv
    have hq : Op.insertString k entry_id v ≠ .begin ∧
        Op.insertString k entry_id v ≠ .commit ∧
        Op.insertString k entry_id v ≠ .rollback := by simp
    cases h : issue env (.insertString k entry_id v) w with
    | mk b w1 =>
      cases b
      · simp only [insertStrings, h]
        exact tracks_of_issue_false hq h
      · simp only [insertStrings, h]
        exact tracks_of_extends (extends_of_issue hq h) (ih w1)

theorem fillRandom_trace (env : Env) (n i : Nat) (rbs : List Nat) (w : World) :
    (fillRandom env n i rbs w).2.trace = w.trace :=
  (fillRandom_store env n i rbs w).2.2.2.1

theorem resolveDate_trace (env : Env) (flags : Flags) (data : List (String × String))
    (now : Int) (w : World) : (resolveDate env flags data now w).2.trace = w.trace := by
  unfold resolveDate
  cases data.lookup "datetime" with
  | none => rfl
  | some dt =>
    by_cases hf : (env.timeParse flags.dateLayout dt).failed = true <;> simp [hf, World.log]

theorem addLine_tracks (env : Env) (flags : Flags) (log_id : Int) (logFmt line : String)
    (w : World) : Tracks w (addLine env flags log_id logFmt line w) := by
  cases hm : env.formatRead logFmt line with
  | none =>
    simp only [addLine, hm]
    refine tracks_of_not_store ?_ (by intro op h; cases h)
    cases flags.relax
    · exact extends_log w _
    · exact extends_refl w
  | some data =>
    rw [addLine_matched hm]
    have hd : Extends w (resolveDate env flags data (env.now (entryId env log_id line w).2.clk)
        { (entryId env log_id line w).2 with
          clk := (entryId env log_id line w).2.clk + 1 }).2 :=
      ⟨[], by
        rw [resolveDate_trace]
        simpa using fillRandom_trace env 2 0 (List.replicate 8 0) w,
        by intro ev h; cases h⟩
    generalize (resolveDate env flags data (env.now (entryId env log_id line w).2.clk)
      { (entryId env log_id line w).2 with
        clk := (entryId env log_id line w).2.clk + 1 }).2 = d at *
    generalize entryDate env flags log_id line data w = t
    generalize (entryId env log_id line w).1 = eid
    generalize (if flags.compact then "" else line) = full
    have hq : Op.insertEntry log_id eid full t ≠ .begin ∧
        Op.insertEntry log_id eid full t ≠ .commit ∧
        Op.insertEntry log_id eid full t ≠ .rollback := by simp
    cases hi : issue env (.insertEntry log_id eid full t) d with
    | mk b w1 =>
      cases b
      · exact tracks_of_extends hd (tracks_of_issue_false hq hi)
      · exact tracks_of_extends (extends_trans hd (extends_of_issue hq hi))
          (insertStrings_tracks env eid data w1)

theorem addLine_txn (env : Env) (flags : Flags) (log_id : Int) (logFmt line : String)
    (w : World) : (addLine env flags log_id logFmt line w).2.txn = w.txn := by
  cases hm : env.formatRead logFmt line with
  | none =>
    simp only [addLine, hm]
    cases flags.relax <;> rfl
  | some data => exact (addLine_entries hm).2.2.1

theorem consume_tracks (env : Env) (flags : Flags) (log_id : Int) (logFmt : String)
    (lines : List String) (w : World) :
    Tracks w (consume env flags log_id logFmt lines w) ∧
    (consume env flags log_id logFmt lines w).2.txn = w.txn := by
  induction lines generalizing w with
  | nil => exact ⟨tracks_of_not_store (extends_refl w) (by intro op h; cases h), rfl⟩
  | cons line rest ih =>
    have ht := addLine_tracks env flags log_id logFmt line w
    have hx := addLine_txn env flags log_id logFmt line w
    cases h : addLine env flags log_id logFmt line w with
    | mk r w1 =>
      rw [h] at ht hx
      cases r with
      | error e =>
        simp only [consume, h]
        exact ⟨ht, hx⟩
      | ok u =>
        simp only [consume, h]
        exact ⟨tracks_of_extends (tracks_extends ht) (ih w1).1, (ih w1).2.trans hx⟩

theorem findNext_issue {env : Env} {lname : String} {w w1 : World} {n : NextResult}
    (h : findNext env lname w = (n, w1)) :
    (n = .err → issue env .findNext w = (false, w1)) ∧ Extends w w1 := by
  unfold findNext at h
  cases hi : issue env .findNext w with
  | mk b w2 =>
    have he : Extends w w2 := extends_of_issue (by simp) hi
    rw [hi] at h
    cases b
    · cases h
      exact ⟨fun _ => rfl, he⟩
    · simp only at h
      split at h <;> cases h <;> exact ⟨fun hn => (by cases hn), he⟩

theorem finalize_extends (env : Env) (w : World) : Extends w (finalize env w) := by
  unfold finalize
  cases hi : issue env .findFinalize w with
  | mk b w1 =>
    have he : Extends w w1 := extends_of_issue (by simp) hi
    cases b
    · exact extends_trans he (extends_log w1 _)
    · exact he

/-- The tail shared by both branches of `getLog`: `Scan`, the log line, `Finalize`. -/
theorem scan_tracks (env : Env) (id : Int) (m : LogMsg) (w : World) :
    Tracks w (match issue env .findScan w with
      | (false, w4) => ((.error (.store .findScan), w4) : Except Panic Int × World)
      | (true, w4) => (.ok id, finalize env (w4.log m))) := by
  cases h : issue env .findScan w with
  | mk b w1 =>
    cases b
    · exact tracks_of_issue_false (by simp) h
    · exact tracks_of_not_store
        (extends_trans (extends_of_issue (by simp) h)
          (extends_trans (extends_log w1 m) (finalize_extends env _)))
        (by intro op hop; cases hop)

theorem getLog_tracks (env : Env) (lname fname : String) (w : World) :
    Tracks w (getLog env lname fname w) := by
  unfold getLog
  cases h1 : issue env .prepareFind w with
  | mk b1 w1 =>
  cases b1
  · exact tracks_of_issue_false (by simp) h1
  refine tracks_of_extends (extends_of_issue (by simp) h1) ?_
  dsimp only
  cases h2 : issue env (.findExec lname) w1 with
  | mk b2 w2 =>
  cases b2
  · exact tracks_of_issue_false (by simp) h2
  refine tracks_of_extends (extends_of_issue (by simp) h2) ?_
  dsimp only
  cases h3 : findNext env lname w2 with
  | mk n3 w3 =>
  obtain ⟨e3, x3⟩ := findNext_issue h3
  cases n3 with
  | err => exact tracks_of_issue_false (by simp) (e3 rfl)
  | row id => exact tracks_of_extends x3 (scan_tracks env id _ w3)
  | done =>
    refine tracks_of_extends x3 ?_
    dsimp only
    cases h4 : issue env (.insertLog lname fname) w3 with
    | mk b4 w4 =>
    cases b4
    · exact tracks_of_issue_false (by simp) h4
    refine tracks_of_extends (extends_of_issue (by simp) h4) ?_
    dsimp only
    cases h5 : issue env .findReset w4 with
    | mk b5 w5 =>
    cases b5
    · exact tracks_of_issue_false (by simp) h5
    refine tracks_of_extends (extends_of_issue (by simp) h5) ?_
    dsimp only
    cases h6 : issue env (.findExec lname) w5 with
    | mk b6 w6 =>
    cases b6
    · exact tracks_of_issue_false (by simp) h6
    refine tracks_of_extends (extends_of_issue (by simp) h6) ?_
    dsimp only
    cases h7 : findNext env lname w6 with
    | mk n7 w7 =>
    obtain ⟨e7, x7⟩ := findNext_issue h7
    cases n7 with
    | err => exact tracks_of_issue_false (by simp) (e7 rfl)
    | row id => exact tracks_of_extends x7 (scan_tracks env id _ w7)
    | done => exact tracks_of_not_store x7 (by intro op hop; cases hop)

theorem tracks_error_cast {α β : Type} {w w1 : World} {e : Panic}
    (h : @Tracks α w (.error e, w1)) : @Tracks β w (.error e, w1) := by
  obtain ⟨evs, t, q, m⟩ := h
  refine ⟨evs, t, q, ?_⟩
  intro op hop
  cases hop
  exact m op rfl

/-- The body of `readLog`: when it is left with `success` unset the transaction
is still the one it started in, the operations issued are none of `BEGIN`,
`COMMIT`, `ROLLBACK`, and a failed store operation is among them; when it is
left with `success` set, it either returns or fails in `COMMIT`. -/
theorem readLogBody_cases (env : Env) (flags : Flags) (fname logFmt : String) (w : World) :
    ((readLogBody env flags fname logFmt w).2.2 = false →
      (readLogBody env flags fname logFmt w).2.1.txn = w.txn ∧
      (∃ e, (readLogBody env flags fname logFmt w).1 = .error e) ∧
      Tracks w ((readLogBody env flags fname logFmt w).1,
        (readLogBody env flags fname logFmt w).2.1)) ∧
    ((readLogBody env flags fname logFmt w).2.2 = true →
      ∃ w2 b, Extends w w2 ∧ issue env .commit w2 = (b, (readLogBody env flags fname logFmt w).2.1) ∧
        (readLogBody env flags fname logFmt w).1 =
          if b then .ok () else .error (.store .commit)) := by
  unfold readLogBody
  have hg := getLog_tracks env (logName fname) fname w
  have hgt := (getLog_cases env (logName fname) fname w).1
  cases h1 : getLog env (logName fname) fname w with
  | mk r1 w1 =>
  rw [h1] at hg hgt
  cases r1 with
  | error e =>
    dsimp only
    exact ⟨fun _ => ⟨hgt, ⟨e, rfl⟩, tracks_error_cast hg⟩, fun h => (by cases h)⟩
  | ok log_id =>
    dsimp only
    have hx : Extends w (w1.log (.readingLogFile fname)) :=
      extends_trans (tracks_extends hg) (extends_log w1 _)
    cases h2 : env.readFile fname with
    | none =>
      dsimp only
      exact ⟨fun _ => ⟨hgt, ⟨_, rfl⟩, tracks_of_not_store hx (by intro op hop; cases hop)⟩,
        fun h => by cases h⟩
    | some frags =>
      dsimp only
      have hc := consume_tracks env flags log_id logFmt (producer "" frags)
        (w1.log (.readingLogFile fname))
      cases h3 : consume env flags log_id logFmt (producer "" frags)
          (w1.log (.readingLogFile fname)) with
      | mk r3 w3 =>
      rw [h3] at hc
      cases r3 with
      | error e =>
        dsimp only
        exact ⟨fun _ => ⟨hc.2.trans hgt, ⟨e, rfl⟩, tracks_of_extends hx hc.1⟩,
          fun h => by cases h⟩
      | ok u =>
        dsimp only
        cases h4 : issue env .commit w3 with
        | mk b4 w4 =>
          cases b4
          · exact ⟨fun h => (by cases h), fun _ => ⟨w3, false,
              extends_trans hx (tracks_extends hc.1), h4, rfl⟩⟩
          · exact ⟨fun h => (by cases h), fun _ => ⟨w3, true,
              extends_trans hx (tracks_extends hc.1), h4, rfl⟩⟩

theorem issue_begin_true {env : Env} {w w1 : World} (h : issue env .begin w = (true, w1)) :
    w1.store = w.store ∧ w1.txn = some w.store ∧ w1.trace = w.trace ++ [(.begin, true)] := by
  obtain ⟨_, w0, he, rfl⟩ := issue_true h
  simp only [Op.effect] at he
  split at he
  · cases he
    exact ⟨rfl, rfl, rfl⟩
  · cases he

theorem issue_rollback_true {env : Env} {w w1 : World} {s : Store} (ht : w.txn = some s)
    (h : issue env .rollback w = (true, w1)) : w1.store = s ∧ w1.txn = none := by
  obtain ⟨_, w0, he, rfl⟩ := issue_true h
  simp only [Op.effect, ht] at he
  cases he
  exact ⟨rfl, rfl⟩

/-- The three ways through `readLog`: `BEGIN` is refused; the body is left with
`success` unset and the deferred function issues `ROLLBACK`; the body reaches
`COMMIT` with `success` set. -/
theorem readLog_cases (env : Env) (flags : Flags) (fname logFmt : String) (w : World) :
    ((readLog env flags fname logFmt w).1 = .error (.store .begin) ∧
      (readLog env flags fname logFmt w).2.store = w.store ∧
      (readLog env flags fname logFmt w).2.trace = w.trace ++ [(.begin, false)]) ∨
    (∃ e evs b, (readLog env flags fname logFmt w).1 = .error e ∧ Quiet evs ∧
      (∀ op, e = .store op → (op, false) ∈ evs) ∧
      (readLog env flags fname logFmt w).2.trace =
        w.trace ++ ((.begin, true) :: (evs ++ [(.rollback, b)])) ∧
      (b = true → (readLog env flags fname logFmt w).2.store = w.store)) ∨
    (∃ evs b, Quiet evs ∧
      (readLog env flags fname logFmt w).2.trace =
        w.trace ++ ((.begin, true) :: (evs ++ [(.commit, b)])) ∧
      (readLog env flags fname logFmt w).1 = if b then .ok () else .error (.store .commit)) := by
  unfold readLog
  cases h0 : issue env .begin w with
  | mk b0 w1 =>
  cases b0
  · left
    have := issue_false h0
    subst this
    exact ⟨rfl, rfl, rfl⟩
  right
  dsimp only
  obtain ⟨s1, t1, tr1⟩ := issue_begin_true h0
  obtain ⟨hfalse, htrue⟩ := readLogBody_cases env flags fname logFmt w1
  cases hflag : (readLogBody env flags fname logFmt w1).2.2
  · left
    obtain ⟨htx, ⟨e, he⟩, evs, htr, hq, hm⟩ := hfalse hflag
    simp only [deferred, Bool.false_eq_true, if_false]
    cases hr : issue env .rollback ((readLogBody env flags fname logFmt w1).2.1.log .rollingBack) with
    | mk b w2 =>
      have hfr := (issue_frame env .rollback
        ((readLogBody env flags fname logFmt w1).2.1.log .rollingBack)).1
      rw [hr] at hfr
      simp only [World.log] at hfr
      refine ⟨e, evs, b, he, hq, fun op hop => hm op (by rw [he, hop]), ?_, ?_⟩
      · cases b
        · simp only [World.log]
          rw [hfr, htr, tr1]
          simp
        · simp only
          rw [hfr, htr, tr1]
          simp
      · intro hb
        subst hb
        have := @issue_rollback_true env _ _ w.store (by simp [World.log, htx, t1]) hr
        simp only
        rw [this.1]
  · right
    obtain ⟨w2, b, ⟨evs, htr, hq⟩, hc, hres⟩ := htrue hflag
    have hfr := (issue_frame env .commit w2).1
    rw [hc] at hfr
    simp only at hfr
    refine ⟨evs, b, hq, ?_, ?_⟩
    · simp only [deferred, if_true]
      rw [hfr, htr, tr1]
      simp
    · exact hres

/-- When `readLog` surfaces the failure of `COMMIT TRANSACTION`, that operation is
the last one it issued: `success` was already set, and the deferred function
issued no `ROLLBACK TRANSACTION`. -/
theorem readLog_commit_failure_trace {env : Env} {flags : Flags} {fname logFmt : String}
    {w w1 : World} (h : readLog env flags fname logFmt w = (.error (.store .commit), w1)) :
    ∃ evs, Quiet evs ∧ w1.trace = w.trace ++ ((.begin, true) :: (evs ++ [(.commit, false)])) := by
  have hcs := readLog_cases env flags fname logFmt w
  rw [h] at hcs
  rcases hcs with ⟨hbg, _, _⟩ | ⟨e1, evs, b, he, hq, hm, _, _⟩ | ⟨evs, b, hq, htr, hres⟩
  · cases hbg
  · simp only at he
    cases he
    exact absurd rfl (hq _ (hm .commit rfl)).2.1
  · cases b
    · exact ⟨evs, hq, htr⟩
    · simp at hres

/-- C6: if `readLog` fails with the failure of the insert into `entries` or of an
insert into `strings` (a store write refused while a line was being persisted)
and the `ROLLBACK` it then issues succeeds, the store after `readLog` is the
store before it: no row of `entries` or `strings` of this run remains, and
neither does a row of `logs` that `getLog` created in it. -/
theorem readLog_failed_line_leaves_no_trace (env : Env) (flags : Flags)
    (fname logFmt : String) (w w1 : World) (e : Panic)
    (h : readLog env flags fname logFmt w = (.error e, w1))
    (he : (∃ log_id entry_id entry_full entry_time,
        e = .store (.insertEntry log_id entry_id entry_full entry_time)) ∨
      (∃ column_name entry_id string_value,
        e = .store (.insertString column_name entry_id string_value)))
    (hrb : w1.trace.getLast? = some (.rollback, true)) :
    w1.store = w.store := by
  have hc := readLog_cases env flags fname logFmt w
  rw [h] at hc
  rcases hc with ⟨hb, _, _⟩ | ⟨e1, evs, b, _, _, _, htr, hst⟩ | ⟨evs, b, _, _, hres⟩
  · cases hb
    rcases he with ⟨_, _, _, _, hr⟩ | ⟨_, _, _, hr⟩ <;> cases hr
  · simp only at htr hst
    rw [htr] at hrb
    have : b = true := by
      rw [← List.cons_append, ← List.append_assoc, List.getLast?_concat] at hrb
      simpa using hrb
    exact hst this
  · cases b
    · simp only [Bool.false_eq_true, if_false] at hres
      cases hres
      rcases he with ⟨_, _, _, _, hr⟩ | ⟨_, _, _, hr⟩ <;> cases hr
    · simp at hres

set_option maxRecDepth 100000 in
theorem readLog_failed_line_leaves_no_trace_witness :
    (readLog (sampleEnv (some 14)) defaultFlags "app.log" defaultFmt emptyWorld).2.store
      = emptyWorld.store :=
  readLog_failed_line_leaves_no_trace (sampleEnv (some 14)) defaultFlags "app.log" defaultFmt
    emptyWorld (readLog (sampleEnv (some 14)) defaultFlags "app.log" defaultFmt emptyWorld).2
    (.store (.insertString "datetime" "d0f0b0d0f0b0d0f0b0d0f0b0d0f0b0d0" "2024-99-99 10:00"))
    (Prod.ext (by decide) rfl) (Or.inr ⟨_, _, _, rfl⟩) (by decide)

/-- When `readLog` surfaces the failure of a store operation other than its own
`BEGIN` and `COMMIT` (an operation of `getLog` or an insert of `addLine`), the
operations it has issued are `BEGIN`, then operations among which the failed one
is recorded, then `ROLLBACK TRANSACTION` as the last one. -/
theorem readLog_failure_before_commit_rolls_back (env : Env) (flags : Flags)
    (fname logFmt : String) (w w1 : World) (op : Op)
    (h : readLog env flags fname logFmt w = (.error (.store op), w1))
    (hb : op ≠ .begin) (hc : op ≠ .commit) :
    ∃ evs b, w1.trace = w.trace ++ ((.begin, true) :: (evs ++ [(.rollback, b)])) ∧
      (op, false) ∈ evs ∧ ∀ b1, (Op.rollback, b1) ∉ evs := by
  have hcs := readLog_cases env flags fname logFmt w
  rw [h] at hcs
  rcases hcs with ⟨hbg, _, _⟩ | ⟨e1, evs, b, he, hq, hm, htr, _⟩ | ⟨evs, b, _, _, hres⟩
  · cases hbg
    exact absurd rfl hb
  · simp only at he htr
    cases he
    exact ⟨evs, b, htr, hm op rfl, fun b1 hmem => (hq _ hmem).2.2 rfl⟩
  · cases b
    · simp only [Bool.false_eq_true, if_false] at hres
      cases hres
      exact absurd rfl hc
    · simp at hres

set_option maxRecDepth 100000 in
/-- In the run of the sample file in which `findStmt.Finalize()` fails in `getLog`,
the failure is logged as a warning only: `readLog` returns, having committed,
and has issued no `ROLLBACK TRANSACTION`. -/
theorem readLog_finalize_failure_only_warned :
    (readLog (sampleEnv (some 9)) defaultFlags "app.log" defaultFmt emptyWorld).1 = .ok () ∧
    (Op.findFinalize, false) ∈
      (readLog (sampleEnv (some 9)) defaultFlags "app.log" defaultFmt emptyWorld).2.trace ∧
    LogMsg.warnFinalize ∈
      (readLog (sampleEnv (some 9)) defaultFlags "app.log" defaultFmt emptyWorld).2.out ∧
    (Op.commit, true) ∈
      (readLog (sampleEnv (some 9)) defaultFlags "app.log" defaultFmt emptyWorld).2.trace := by
  decide

set_option maxRecDepth 100000 in
/-- C7 (the code departs from the claim): in the run of the sample file in which
the store refuses the final `COMMIT TRANSACTION`, `readLog` surfaces that
failure and has issued no `ROLLBACK TRANSACTION`: `success = true` stands one
statement before the `COMMIT`, so the deferred function takes the run for a
success, while every failure before it is rolled back. -/
theorem readLog_commit_failure_not_rolled_back :
    (readLog (sampleEnv (some 16)) defaultFlags "app.log" defaultFmt emptyWorld).1
      = .error (.store .commit) ∧
    (Op.commit, false) ∈
      (readLog (sampleEnv (some 16)) defaultFlags "app.log" defaultFmt emptyWorld).2.trace ∧
    (Op.rollback, true) ∉
      (readLog (sampleEnv (some 16)) defaultFlags "app.log" defaultFmt emptyWorld).2.trace ∧
    (Op.rollback, false) ∉
      (readLog (sampleEnv (some 16)) defaultFlags "app.log" defaultFmt emptyWorld).2.trace := by
  decide

/-! ## Lemmas and claim on the reassembly of lines -/

theorem producer_rest (line : String) (rest : List String) :
    producer line (rest.map (fun p => (p, true))) = [] := by
  induction rest generalizing line with
  | nil => rfl
  | cons p rest ih => simp [producer, ih]

theorem producer_run (line : String) (pieces : List String) (last : String)
    (more : List (String × Bool)) :
    producer line (fragmentsOf pieces last ++ more) =
      (pieces ++ [last]).foldl (fun r s => r ++ s) line :: producer "" more := by
  induction pieces generalizing line with
  | nil => simp [fragmentsOf, producer]
  | cons p pieces ih =>
    have := ih (line ++ p)
    simp only [fragmentsOf, List.map_cons, List.cons_append, producer] at this ⊢
    simpa using this

theorem producer_file (runs : List (List String × String)) (rest : List String) :
    producer "" (fragmentsOfFile runs rest) = runs.map (fun r => String.join (r.1 ++ [r.2])) := by
  induction runs with
  | nil => simpa [fragmentsOfFile] using producer_rest "" rest
  | cons r runs ih =>
    simp only [fragmentsOfFile, List.flatMap_cons, List.append_assoc, List.map_cons] at ih ⊢
    rw [producer_run, ih]
    rfl

theorem fragments_decompose (frags : List (String × Bool)) :
    ∃ runs rest, frags = fragmentsOfFile runs rest := by
  induction frags with
  | nil => exact ⟨[], [], rfl⟩
  | cons f frags ih =>
    obtain ⟨l, isPrefix⟩ := f
    obtain ⟨runs, rest, rfl⟩ := ih
    cases isPrefix
    · exact ⟨([], l) :: runs, rest, by simp [fragmentsOfFile, fragmentsOf]⟩
    · cases runs with
      | nil => exact ⟨[], l :: rest, by simp [fragmentsOfFile]⟩
      | cons r runs =>
        exact ⟨(l :: r.1, r.2) :: runs, rest, by simp [fragmentsOfFile, fragmentsOf]⟩

theorem addLine_unmatched_store (env : Env) (flags : Flags) (log_id : Int)
    {logFmt : String} (line : String) (w : World) (hm : env.formatRead logFmt line = none) :
    (addLine env flags log_id logFmt line w).2.store = w.store := by
  simp only [addLine, hm]
  cases flags.relax <;> rfl

/-- When the loop over the channel ends normally, the `entry_full` column has
gained the accepted lines, in the order in which they were received. -/
theorem consume_ok_entries {env : Env} {flags : Flags} {log_id : Int} {logFmt : String}
    {lines : List String} {w w1 : World}
    (h : consume env flags log_id logFmt lines w = (.ok (), w1)) :
    w1.store.entries.map (fun r => r.entry_full) =
      w.store.entries.map (fun r => r.entry_full) ++
        (lines.filter (fun l => (env.formatRead logFmt l).isSome)).map
          (fun l => env.affinity (if flags.compact then "" else l)) := by
  induction lines generalizing w with
  | nil =>
    simp only [consume] at h
    cases h
    simp
  | cons line lines ih =>
    cases ha : addLine env flags log_id logFmt line w with
    | mk r w2 =>
      cases r with
      | error e => simp [consume, ha] at h
      | ok u =>
        simp only [consume, ha] at h
        rw [ih h]
        cases hm : env.formatRead logFmt line with
        | none =>
          have := addLine_unmatched_store env flags log_id line w hm
          rw [ha] at this
          simp only at this
          simp [this, hm]
        | some data =>
          have := (addLine_ok hm ha).2.2.2.1
          simp [this, hm, entryRow, storedEntry]

theorem getLog_entries (env : Env) (lname fname : String) (w : World) :
    (getLog env lname fname w).2.store.entries = w.store.entries := by
  have hc := (getLog_cases env lname fname w).2
  cases hf : w.store.logs.find? (fun r => r.log_name == env.affinity lname) with
  | some row =>
    rw [hf] at hc
    rw [hc.1]
  | none =>
    rw [hf] at hc
    rcases hc with ⟨hs, _⟩ | ⟨hs, _⟩ <;> rw [hs]
    rfl

theorem issue_commit_true {env : Env} {w w1 : World} (h : issue env .commit w = (true, w1)) :
    w1.store = w.store := by
  obtain ⟨_, w0, he, rfl⟩ := issue_true h
  simp only [Op.effect] at he
  split at he
  · cases he
    rfl
  · cases he

/-- A run of `readLog` that returns has read the file and run the loop over the
lines sent on the channel to its end, between `getLog` and `COMMIT`. -/
theorem readLog_ok {env : Env} {flags : Flags} {fname logFmt : String} {w w1 : World}
    (h : readLog env flags fname logFmt w = (.ok (), w1)) :
    ∃ frags log_id w2 w3, env.readFile fname = some frags ∧
      w2.store.entries = w.store.entries ∧
      consume env flags log_id logFmt (producer "" frags) w2 = (.ok (), w3) ∧
      w1.store = w3.store := by
  unfold readLog at h
  cases h0 : issue env .begin w with
  | mk b0 wb =>
  rw [h0] at h
  cases b0
  · simp at h
  dsimp only at h
  have hs0 := (issue_begin_true h0).1
  have hge := getLog_entries env (logName fname) fname wb
  unfold readLogBody at h
  cases h1 : getLog env (logName fname) fname wb with
  | mk r1 wg =>
  rw [h1] at h hge
  cases r1 with
  | error e => simp at h
  | ok log_id =>
    dsimp only at h
    cases h2 : env.readFile fname with
    | none =>
      rw [h2] at h
      simp at h
    | some frags =>
      rw [h2] at h
      dsimp only at h
      cases h3 : consume env flags log_id logFmt (producer "" frags)
          (wg.log (.readingLogFile fname)) with
      | mk r3 wc =>
      rw [h3] at h
      cases r3 with
      | error e => simp at h
      | ok u =>
        dsimp only at h
        cases h4 : issue env .commit wc with
        | mk b4 w4 =>
        rw [h4] at h
        cases b4
        · simp at h
        · simp only [deferred, if_true] at h
          cases h
          exact ⟨frags, log_id, wg.log (.readingLogFile fname), wc, rfl,
            hge.trans (congrArg Store.entries hs0), h3, issue_commit_true h4⟩

/-- What the goroutine of `readLog` sends on the channel: in order, the
concatenations of the runs of fragments that end at a fragment with `isPrefix`
unset; fragments left over after the last such run are not sent.  Every sequence
of `ReadLine` results is made of such runs and such a rest.  And the strings
sent are handed to `addLine` in that order: in a run of `readLog` that returns,
the `entry_full` column has gained what it keeps of the accepted ones, in the
order in which they were sent. -/
theorem producer_sends_finished_runs :
    (∀ (runs : List (List String × String)) (rest : List String),
      producer "" (fragmentsOfFile runs rest) =
        runs.map (fun r => String.join (r.1 ++ [r.2]))) ∧
    (∀ frags : List (String × Bool), ∃ runs rest, frags = fragmentsOfFile runs rest) ∧
    (∀ (env : Env) (flags : Flags) (fname logFmt : String) (frags : List (String × Bool))
      (w w1 : World), env.readFile fname = some frags →
      readLog env flags fname logFmt w = (.ok (), w1) →
      w1.store.entries.map (fun r => r.entry_full) =
        w.store.entries.map (fun r => r.entry_full) ++
          ((producer "" frags).filter (fun l => (env.formatRead logFmt l).isSome)).map
            (fun l => env.affinity (if flags.compact then "" else l))) := by
  refine ⟨producer_file, fragments_decompose, ?_⟩
  intro env flags fname logFmt frags w w1 hf h
  obtain ⟨frags1, log_id, w2, w3, hf1, he, hc, hs⟩ := readLog_ok h
  rw [hf] at hf1
  cases hf1
  rw [hs, consume_ok_entries hc, he]

set_option maxRecDepth 100000 in
/-- C9 (the code departs from the claim): for the file `long.log`, whose one
logical line of 4096 bytes has no line end, `ReadLine` returns the full buffer
with `isPrefix` set and then `io.EOF`; the goroutine sends nothing on the
channel, because nothing is sent after its loop, and `readLog` commits a run
without an entry although the matcher accepts the line.  With a line end after
it the same line is sent whole. -/
theorem producer_drops_unfinished_last_line :
    (sampleEnv none).readFile "long.log" = some [(longLine, true)] ∧
    producer "" [(longLine, true)] = [] ∧
    ((sampleEnv none).formatRead "${msg}" longLine).isSome = true ∧
    (readLog (sampleEnv none) defaultFlags "long.log" "${msg}" emptyWorld).1 = .ok () ∧
    (Op.commit, true) ∈
      (readLog (sampleEnv none) defaultFlags "long.log" "${msg}" emptyWorld).2.trace ∧
    (readLog (sampleEnv none) defaultFlags "long.log" "${msg}" emptyWorld).2.store.entries
      = [] ∧
    producer "" [(longLine, true), ("", false)] = [longLine] := by
  refine ⟨rfl, rfl, by decide, by decide, by decide, by decide, ?_⟩
  simp [producer]

end Tinder
